import Mathlib

set_option maxRecDepth 8192

/-! Shallow embedding of the incremental synchronization engine of this
repository (fastgpt_sync.py): the identity resolver, the state-store
migration, the scan-and-filter pipeline with its skip / add / update
classification, the collection resolver and its per-run cache, the
remote-store client wrappers, and the state-store save discipline. -/

/-- Filenames, digests and other text are modelled as lists of characters. -/
abbrev Str := List Char

/-- ASCII decimal digit test: the characters matched by the digit class of
the identity pattern. -/
def isAsciiDigit (c : Char) : Bool := ('0' ≤ c) && (c ≤ '9')

/-- Recognizer for an identity token: the literal characters N, C, T
followed by exactly eight decimal digits. -/
def isNCTTokenB (t : Str) : Bool :=
  match t with
  | 'N' :: 'C' :: 'T' :: ds => (ds.length == 8) && ds.all isAsciiDigit
  | _ => false

/-- One attempt of the fixed-width pattern at the current position: the
pattern matches here exactly when the first eleven characters form a
token. -/
def matchNCTAt (l : Str) : Option Str :=
  if isNCTTokenB (l.take 11) then some (l.take 11) else none

/-- Leftmost search for the token, as the regex search does for this
fixed-width pattern: try each position from the left. -/
def searchNCT : Str → Option Str
  | [] => none
  | c :: rest =>
    match matchNCTAt (c :: rest) with
    | some t => some t
    | none => searchNCT rest

/-- FastGPTSyncer._get_file_identity: the leftmost token when one is
present, otherwise the whole filename. -/
def getFileIdentity (filename : Str) : Str :=
  match searchNCT filename with
  | some t => t
  | none => filename

/-- The text t occurs contiguously somewhere inside fn. -/
def occursIn (t fn : Str) : Prop := ∃ pre suf, fn = pre ++ t ++ suf

/-- Python substring containment, the (sub in s) test. -/
def hasSubstr (sub : Str) : Str → Bool
  | [] => sub.isEmpty
  | c :: rest => sub.isPrefixOf (c :: rest) || hasSubstr sub rest

/-- A Sync Record as stored in the state file.  The filename field is
optional because legacy records may lack it (migration fills it in); the
upload time is wall-clock data irrelevant to the logic and is abstracted. -/
structure SyncRecord where
  filename : Option Str
  hash : Str
  uploadTime : Str
  collectionId : Str
  sourcePath : Str
deriving DecidableEq

/-- Association-list lookup with Python-dict semantics (keys are unique;
the binding for a key is found by scanning). -/
def alLookup {α : Type} (k : Str) : List (Str × α) → Option α
  | [] => none
  | kv :: rest => if kv.1 = k then some kv.2 else alLookup k rest

/-- Association-list assignment with Python-dict semantics: an existing
key is updated in place, a new key is appended (insertion order kept). -/
def alInsert {α : Type} (k : Str) (v : α) : List (Str × α) → List (Str × α)
  | [] => [(k, v)]
  | kv :: rest => if kv.1 = k then (k, v) :: rest else kv :: alInsert k v rest

/-- Fill in the filename field from the old key when it is absent, as the
migration loop does. -/
def withFilename (k : Str) (r : SyncRecord) : SyncRecord :=
  match r.filename with
  | some _ => r
  | none => { r with filename := some k }

/-- One iteration of the state-migration loop in sync_once: re-key the
record through the identity resolver; when the new identity is already
present, keep the existing record and drop this one. -/
def migrateStep (acc : List (Str × SyncRecord)) (kv : Str × SyncRecord) :
    List (Str × SyncRecord) :=
  match alLookup (getFileIdentity kv.1) acc with
  | some _ => acc
  | none => acc ++ [(getFileIdentity kv.1, withFilename kv.1 kv.2)]

/-- The key migration performed at the start of every sync_once run. -/
def migrate (m : List (Str × SyncRecord)) : List (Str × SyncRecord) :=
  m.foldl migrateStep []

/-- The two upload filter modes of the pipeline. -/
inductive FilterMode
  | today
  | all
deriving DecidableEq

/-- Per-run configuration: the filter mode, the formatted current date,
the configured variant subdirectory name, the name of the scan root, and
the outcome the remote store gives to a collection find-or-create request
for each grouping name. -/
structure SyncConfig where
  mode : FilterMode
  todayStr : Str
  cnSubdir : Str
  rootName : Str
  collOracle : Str → Option Str

/-- One discovered file: its name, the names of its parent and
grandparent directories, its path segments, its path relative to the
root, its content fingerprint, and whether uploading it would succeed. -/
structure FileInfo where
  name : Str
  parentName : Str
  grandparentName : Str
  parts : List Str
  sourcePath : Str
  hash : Str
  uploadOk : Bool
deriving DecidableEq

/-- The evolving state of one pipeline run: the identity-to-record map,
the three counters, the per-run collection cache, and observation logs of
the resolution calls, upload attempts and state-store saves performed. -/
structure SyncState where
  files : List (Str × SyncRecord)
  added : Nat
  modified : Nat
  skipped : Nat
  cache : List (Str × Str)
  collCalls : List Str
  uploadAttempts : List Str
  saveLog : List (List (Str × SyncRecord))
deriving DecidableEq

/-- The translated-file marker. -/
def zhMark : Str := ("-zh").data

/-- The system-file exclusion marker. -/
def dsStore : Str := (".DS_Store").data

/-- The reserved archive path segment. -/
def historySeg : Str := ("history").data

/-- The fallback grouping name. -/
def defaultCollection : Str := ("Default_Collection").data

/-- The core inclusion filter of sync_once: the name must contain the
translated marker and must not contain the system-file marker. -/
def passesMarker (f : FileInfo) : Bool :=
  hasSubstr zhMark f.name && !hasSubstr dsStore f.name

/-- The date filter of sync_once: in today mode the name must begin with
the formatted current date; in all mode every file passes. -/
def passesDate (cfg : SyncConfig) (f : FileInfo) : Bool :=
  match cfg.mode with
  | .all => true
  | .today => cfg.todayStr.isPrefixOf f.name

/-- A file that passes both the marker filter and the date filter. -/
def eligibleFile (cfg : SyncConfig) (f : FileInfo) : Bool :=
  passesMarker f && passesDate cfg f

/-- The grouping-name derivation of sync_once: parent directory name;
the grandparent when the parent is the configured variant subdirectory or
the zh or en variant directory; forced to the archive segment when any
path segment equals it; the fixed default when the remaining name is
empty, a dot, a slash, or the root directory name. -/
def collectionName (cfg : SyncConfig) (f : FileInfo) : Str :=
  let c1 := f.parentName
  let c2 := if c1 = cfg.cnSubdir ∨ c1 = ("zh").data ∨ c1 = ("en").data then
      f.grandparentName else c1
  let c3 := if historySeg ∈ f.parts then historySeg else c2
  if c3 = [] ∨ c3 = (".").data ∨ c3 = ("/").data ∨ c3 = cfg.rootName then
    defaultCollection else c3

/-- Modelled from the spec: the grouping-name derivation policy as claim
C8 words it — normally the parent directory name; the grandparent when
the parent is one of the known variant subdirectory names; forced to the
archive marker when any segment of the path equals it; and a fixed
default grouping name when no usable name remains. -/
def groupingNameSpec (cfg : SyncConfig) (f : FileInfo) : Str :=
  let base := if f.parentName ∈ [cfg.cnSubdir, ("zh").data, ("en").data] then
      f.grandparentName else f.parentName
  let forced := if historySeg ∈ f.parts then historySeg else base
  if forced = [] ∨ forced ∈ [(".").data, ("/").data, cfg.rootName] then
    defaultCollection else forced

/-- The record written after a successful upload of the file; its hash is
the fingerprint of exactly the uploaded bytes.  The upload time is
wall-clock data, abstracted as empty text. -/
def mkRecord (f : FileInfo) (cid : Str) : SyncRecord :=
  { filename := some f.name, hash := f.hash, uploadTime := [],
    collectionId := cid, sourcePath := f.sourcePath }

/-- The collection cache discipline of sync_once: a cached grouping name
is answered from the cache; otherwise one resolution call is made to the
remote store and only a successful result is cached. -/
def resolveCollection (cfg : SyncConfig) (s : SyncState) (n : Str) :
    Option Str × SyncState :=
  match alLookup n s.cache with
  | some cid => (some cid, s)
  | none =>
    match cfg.collOracle n with
    | some cid =>
      (some cid, { s with collCalls := s.collCalls ++ [n],
                          cache := alInsert n cid s.cache })
    | none => (none, { s with collCalls := s.collCalls ++ [n] })

/-- The upload phase of the per-file loop: resolve the collection (a
failure skips the file), attempt the upload, and on success overwrite the
record, bump the proper counter and persist the store. -/
def uploadPhase (cfg : SyncConfig) (s : SyncState) (f : FileInfo)
    (prior : Option SyncRecord) : SyncState :=
  match resolveCollection cfg s (collectionName cfg f) with
  | (none, s1) => s1
  | (some cid, s1) =>
    let s2 := { s1 with uploadAttempts := s1.uploadAttempts ++ [f.name] }
    if f.uploadOk then
      let newFiles := alInsert (getFileIdentity f.name) (mkRecord f cid) s2.files
      { s2 with files := newFiles,
                added := if prior.isSome then s2.added else s2.added + 1,
                modified := if prior.isSome then s2.modified + 1 else s2.modified,
                saveLog := s2.saveLog ++ [newFiles] }
    else s2

/-- The body of the per-file loop of sync_once: marker filter, date
filter (counted as skipped), identity and fingerprint classification
(an unchanged file is counted as skipped), then the upload phase. -/
def processFile (cfg : SyncConfig) (s : SyncState) (f : FileInfo) : SyncState :=
  if passesMarker f = false then s
  else if passesDate cfg f = false then { s with skipped := s.skipped + 1 }
  else
    match alLookup (getFileIdentity f.name) s.files with
    | some r =>
      if r.hash = f.hash then { s with skipped := s.skipped + 1 }
      else uploadPhase cfg s f (some r)
    | none => uploadPhase cfg s f none

/-- The state at the start of the scan: the loaded mapping has been
migrated and immediately persisted, counters are zero and the collection
cache is empty. -/
def initState (m : List (Str × SyncRecord)) : SyncState :=
  { files := migrate m, added := 0, modified := 0, skipped := 0,
    cache := [], collCalls := [], uploadAttempts := [],
    saveLog := [migrate m] }

/-- One full sync_once run over the discovered files in enumeration
order. -/
def runSync (cfg : SyncConfig) (m : List (Str × SyncRecord))
    (fs : List FileInfo) : SyncState :=
  fs.foldl (processFile cfg) (initState m)

/-- Every cached collection id was obtained from the remote store for
that grouping name. -/
def cacheConsistent (cfg : SyncConfig) (s : SyncState) : Prop :=
  ∀ n cid, alLookup n s.cache = some cid → cfg.collOracle n = some cid

/-- Call-accounting invariant of the per-run collection cache: a grouping
name the remote store can resolve is called at most once, and once it has
been called it is cached. -/
def callsInv (cfg : SyncConfig) (s : SyncState) : Prop :=
  ∀ n, (cfg.collOracle n).isSome = true →
    s.collCalls.count n ≤ 1 ∧
    (1 ≤ s.collCalls.count n → (alLookup n s.cache).isSome = true)

/-- The shape the mapping has after a migration: every key is a fixed
point of the identity resolver, every record carries a filename and keys
are pairwise distinct. -/
def migratedKeys (m : List (Str × SyncRecord)) : Prop :=
  (∀ kv ∈ m, getFileIdentity kv.1 = kv.1 ∧ kv.2.filename.isSome = true) ∧
  List.Pairwise (fun a b => a.1 ≠ b.1) m

/-- File-system effects performed by FastGPTSyncer._save_state. -/
inductive FsOp
  | mkdirParents
  | openTrunc
  | writeChunk (s : Str)
deriving DecidableEq

/-- The on-disk picture: whether the parent directory exists, the content
at the state-file path, and the contents of any other files the save
might have produced (a temporary copy, say). -/
structure FsState where
  parentExists : Bool
  mainFile : Option Str
  tempFiles : List Str
deriving DecidableEq

/-- Effect of a single file-system operation. -/
def applyFsOp (fs : FsState) : FsOp → FsState
  | .mkdirParents => { fs with parentExists := true }
  | .openTrunc => { fs with mainFile := some [] }
  | .writeChunk s => { fs with mainFile := some ((fs.mainFile.getD []) ++ s) }

/-- Run a sequence of file-system operations. -/
def runFsOps (fs : FsState) (ops : List FsOp) : FsState :=
  ops.foldl applyFsOp fs

/-- FastGPTSyncer._save_state as its sequence of file-system effects:
create the parent directory, open the state file for writing in place
(truncating it), then stream out the serialized chunks.  No temporary
file is involved at any point. -/
def saveStateOps (chunks : List Str) : List FsOp :=
  FsOp.mkdirParents :: FsOp.openTrunc :: chunks.map FsOp.writeChunk

/-- Crash safety in the sense of claim C5: stopping the save after any
prefix of its operations leaves the old content intact, or the complete
new content, or some other on-disk copy to recover from. -/
def saveCrashSafe : Prop :=
  ∀ (old : Str) (chunks : List Str) (k : Nat),
    (runFsOps { parentExists := true, mainFile := some old, tempFiles := [] }
        ((saveStateOps chunks).take k)).mainFile = some old ∨
    (runFsOps { parentExists := true, mainFile := some old, tempFiles := [] }
        ((saveStateOps chunks).take k)).mainFile = some chunks.flatten ∨
    (runFsOps { parentExists := true, mainFile := some old, tempFiles := [] }
        ((saveStateOps chunks).take k)).tempFiles ≠ []

/-- Outcome of one collection-list request: a transport exception, a
non-success or no-match response, or an exact-name match carrying the
collection id. -/
inductive ListResult
  | exc
  | bad
  | found (cid : Str)
deriving DecidableEq

/-- Outcome of one collection-create request. -/
inductive CreateResult
  | exc
  | bad
  | ok (cid : Str)
deriving DecidableEq

/-- FastGPTSyncer.get_or_create_collection over the sequences of
responses the remote store would give to successive lookup and creation
requests.  Returns the resolved id (none on failure) and the number of
remote requests issued.  The source makes a single pass: one lookup,
then at most one create; a lookup exception aborts before the create. -/
def getOrCreateCollection (lists : Nat → ListResult)
    (creates : Nat → CreateResult) : Option Str × Nat :=
  match lists 0 with
  | .exc => (none, 1)
  | .found cid => (some cid, 1)
  | .bad =>
    match creates 0 with
    | .ok cid => (some cid, 2)
    | _ => (none, 2)

/-- Modelled from the spec: collection resolution wrapped in the bounded
retry loop that claim C6 prescribes for both remote operations; round k
consumes the k-th lookup and creation responses and a failed round is
retried while attempts remain. -/
def getOrCreateRetrySpec (lists : Nat → ListResult)
    (creates : Nat → CreateResult) : Nat → Nat → Option Str
  | _, 0 => none
  | round, remaining + 1 =>
    match lists round with
    | .found cid => some cid
    | _ =>
      match creates round with
      | .ok cid => some cid
      | _ => getOrCreateRetrySpec lists creates (round + 1) remaining

/-- Outcome of one upload attempt: success, a non-success status, an
application-level error code in a success-status response, or a
transport exception. -/
inductive UploadOutcome
  | ok
  | httpErr
  | appErr
  | exc
deriving DecidableEq

/-- Only a success-status response with a success code counts. -/
def uploadOutcomeOk : UploadOutcome → Bool
  | .ok => true
  | _ => false

/-- The retry loop of FastGPTSyncer.upload_file, indexed by the current
attempt number and the remaining attempts; yields whether some attempt
succeeded, how many attempts were made, and the total seconds slept
(a delay is inserted only between consecutive attempts). -/
def uploadFileGo (outcomes : Nat → UploadOutcome) (retryTimes retryDelay : Nat) :
    Nat → Nat → Bool × Nat × Nat
  | _, 0 => (false, 0, 0)
  | attempt, remaining + 1 =>
    if uploadOutcomeOk (outcomes attempt) then (true, 1, 0)
    else
      let pause := if attempt < retryTimes - 1 then retryDelay else 0
      let rest := uploadFileGo outcomes retryTimes retryDelay (attempt + 1) remaining
      (rest.1, rest.2.1 + 1, pause + rest.2.2)

/-- FastGPTSyncer.upload_file: up to retryTimes attempts with a fixed
delay between consecutive attempts; False after exhausting them. -/
def uploadFile (outcomes : Nat → UploadOutcome) (retryTimes retryDelay : Nat) :
    Bool × Nat × Nat :=
  uploadFileGo outcomes retryTimes retryDelay 0 retryTimes

/-- A constant resolution oracle that always succeeds. -/
def oracleAlways : Str → Option Str := fun _ => some (("COL").data)

/-- A resolution oracle for which every lookup and creation fails. -/
def oracleNever : Str → Option Str := fun _ => none

/-- A run configuration in all mode against a cooperative remote store. -/
def cfgA : SyncConfig :=
  { mode := .all, todayStr := ("2025-01-01").data, cnSubdir := ("cn").data,
    rootName := ("output").data, collOracle := oracleAlways }

/-- A run configuration in all mode against a failing remote store. -/
def cfgN : SyncConfig :=
  { mode := .all, todayStr := ("2025-01-01").data, cnSubdir := ("cn").data,
    rootName := ("output").data, collOracle := oracleNever }

/-- A run configuration in today mode against a cooperative remote store. -/
def cfgT : SyncConfig :=
  { mode := .today, todayStr := ("2025-01-01").data, cnSubdir := ("cn").data,
    rootName := ("output").data, collOracle := oracleAlways }

/-- A ready translated file carrying the identity token NCT00000001. -/
def fileA : FileInfo :=
  { name := ("a-NCT00000001-zh.md").data, parentName := ("trials").data,
    grandparentName := ("output").data,
    parts := [("output").data, ("trials").data, ("a-NCT00000001-zh.md").data],
    sourcePath := ("trials/a-NCT00000001-zh.md").data,
    hash := ("h1").data, uploadOk := true }

/-- A second file with the same identity token but different content. -/
def fileB : FileInfo :=
  { name := ("b-NCT00000001-zh.md").data, parentName := ("trials").data,
    grandparentName := ("output").data,
    parts := [("output").data, ("trials").data, ("b-NCT00000001-zh.md").data],
    sourcePath := ("trials/b-NCT00000001-zh.md").data,
    hash := ("h2").data, uploadOk := true }

/-- A ready translated file inside the archive directory. -/
def fileH1 : FileInfo :=
  { name := ("a-NCT00000002-zh.md").data, parentName := ("history").data,
    grandparentName := ("output").data,
    parts := [("output").data, ("history").data, ("a-NCT00000002-zh.md").data],
    sourcePath := ("history/a-NCT00000002-zh.md").data,
    hash := ("h3").data, uploadOk := true }

/-- A second ready translated file inside the archive directory. -/
def fileH2 : FileInfo :=
  { name := ("b-NCT00000003-zh.md").data, parentName := ("history").data,
    grandparentName := ("output").data,
    parts := [("output").data, ("history").data, ("b-NCT00000003-zh.md").data],
    sourcePath := ("history/b-NCT00000003-zh.md").data,
    hash := ("h4").data, uploadOk := true }

/-- A ready translated file dated before the current run date. -/
def fileOld : FileInfo :=
  { name := ("2024-12-31-NCT01234567-zh.md").data, parentName := ("trials").data,
    grandparentName := ("output").data,
    parts := [("output").data, ("trials").data,
      ("2024-12-31-NCT01234567-zh.md").data],
    sourcePath := ("trials/2024-12-31-NCT01234567-zh.md").data,
    hash := ("h5").data, uploadOk := true }

/-- A file without the translated marker. -/
def fileNoZh : FileInfo :=
  { name := ("readme.md").data, parentName := ("trials").data,
    grandparentName := ("output").data,
    parts := [("output").data, ("trials").data, ("readme.md").data],
    sourcePath := ("trials/readme.md").data,
    hash := ("h6").data, uploadOk := true }

/-- A ready translated file whose upload fails every attempt. -/
def fileFail : FileInfo :=
  { name := ("c-NCT00000004-zh.md").data, parentName := ("trials").data,
    grandparentName := ("output").data,
    parts := [("output").data, ("trials").data, ("c-NCT00000004-zh.md").data],
    sourcePath := ("trials/c-NCT00000004-zh.md").data,
    hash := ("h7").data, uploadOk := false }

theorem take_len_append {α : Type} (a b : List α) : (a ++ b).take a.length = a := by
  induction a with
  | nil => rfl
  | cons x xs ih =>
    show ((x :: (xs ++ b)).take (xs.length + 1)) = x :: xs
    rw [List.take_succ_cons, ih]

theorem tokenB_shape (t : Str) (h : isNCTTokenB t = true) :
    ∃ ds, t = 'N' :: 'C' :: 'T' :: ds ∧ ds.length = 8 := by
  unfold isNCTTokenB at h
  split at h
  case h_1 ds =>
    rw [Bool.and_eq_true] at h
    exact ⟨ds, rfl, by simpa using h.1⟩
  case h_2 => simp at h

theorem tokenB_len (t : Str) (h : isNCTTokenB t = true) : t.length = 11 := by
  obtain ⟨ds, rfl, hlen⟩ := tokenB_shape t h
  simp [hlen]

theorem matchNCTAt_some (l t : Str) (h : matchNCTAt l = some t) :
    isNCTTokenB t = true ∧ t = l.take 11 := by
  unfold matchNCTAt at h
  split at h
  · cases h
    constructor
    · assumption
    · rfl
  · cases h

theorem matchNCTAt_of_token (t suf : Str) (h : isNCTTokenB t = true) :
    matchNCTAt (t ++ suf) = some t := by
  have hlen : t.length = 11 := tokenB_len t h
  have htake : (t ++ suf).take 11 = t := by
    rw [← hlen]; exact take_len_append t suf
  unfold matchNCTAt
  rw [htake, h]
  simp

theorem searchNCT_some (l t : Str) (h : searchNCT l = some t) :
    isNCTTokenB t = true ∧ occursIn t l := by
  induction l with
  | nil => simp [searchNCT] at h
  | cons c rest ih =>
    unfold searchNCT at h
    cases hm : matchNCTAt (c :: rest) with
    | some u =>
      rw [hm] at h
      cases h
      obtain ⟨htok, hteq⟩ := matchNCTAt_some _ _ hm
      refine ⟨htok, [], (c :: rest).drop 11, ?_⟩
      rw [hteq]
      simp
    | none =>
      rw [hm] at h
      obtain ⟨htok, pre, suf, heq⟩ := ih h
      exact ⟨htok, c :: pre, suf, by simp [heq]⟩

theorem searchNCT_isSome_of_occurs (t l : Str) (ht : isNCTTokenB t = true)
    (ho : occursIn t l) : (searchNCT l).isSome = true := by
  obtain ⟨pre, suf, rfl⟩ := ho
  induction pre with
  | nil =>
    have hm := matchNCTAt_of_token t suf ht
    obtain ⟨ds, rfl, _⟩ := tokenB_shape t ht
    simp only [List.nil_append, List.cons_append] at hm ⊢
    simp [searchNCT, hm]
  | cons p ps ih =>
    rw [List.append_assoc] at ih
    simp only [List.cons_append, List.append_assoc]
    cases hm : matchNCTAt (p :: (ps ++ (t ++ suf))) with
    | some u => simp [searchNCT, hm]
    | none => simp [searchNCT, hm, ih]

theorem getFileIdentity_idem (fn : Str) :
    getFileIdentity (getFileIdentity fn) = getFileIdentity fn := by
  cases h : searchNCT fn with
  | none => simp [getFileIdentity, h]
  | some t =>
    obtain ⟨htok, -⟩ := searchNCT_some fn t h
    have hself : searchNCT t = some t := by
      have hm := matchNCTAt_of_token t [] htok
      rw [List.append_nil] at hm
      obtain ⟨ds, rfl, -⟩ := tokenB_shape t htok
      simp [searchNCT, hm]
    simp [getFileIdentity, h, hself]

theorem occursIn_mem {t fn : Str} {c : Char} (h : occursIn t fn) (hc : c ∈ t) :
    c ∈ fn := by
  obtain ⟨pre, suf, rfl⟩ := h
  simp only [List.mem_append]
  exact Or.inl (Or.inr hc)

theorem no_token_no_upperN {fn : Str} (hN : 'N' ∉ fn) :
    ∀ t, isNCTTokenB t = true → ¬ occursIn t fn := by
  intro t ht ho
  obtain ⟨ds, rfl, -⟩ := tokenB_shape t ht
  exact hN (occursIn_mem ho (by simp))

/-- Claim C3 (confirmed): identity resolution is a pure function of the
filename; whenever the filename contains a token of the literal prefix
followed by exactly eight decimal digits, resolution returns exactly such
a token occurring in the filename (the leftmost one), and whenever no
such token occurs the filename itself is returned unchanged. -/
theorem C3_identity_resolution (fn : Str) :
    ((∃ t, isNCTTokenB t = true ∧ occursIn t fn) →
      isNCTTokenB (getFileIdentity fn) = true ∧
        occursIn (getFileIdentity fn) fn) ∧
    ((∀ t, isNCTTokenB t = true → ¬ occursIn t fn) → getFileIdentity fn = fn) := by
  constructor
  · rintro ⟨t, ht, ho⟩
    have hs := searchNCT_isSome_of_occurs t fn ht ho
    cases h : searchNCT fn with
    | none => rw [h] at hs; simp at hs
    | some u =>
      have hu := searchNCT_some fn u h
      simpa [getFileIdentity, h] using hu
  · intro hno
    cases h : searchNCT fn with
    | none => simp [getFileIdentity, h]
    | some u =>
      obtain ⟨htok, ho⟩ := searchNCT_some fn u h
      exact absurd ho (hno u htok)

/-- Witness for C3 at a concrete tokened filename and a concrete
token-free filename. -/
theorem C3_identity_resolution_witness :
    (isNCTTokenB (getFileIdentity (("2025-01-01-NCT01234567-zh.md").data)) = true ∧
      occursIn (getFileIdentity (("2025-01-01-NCT01234567-zh.md").data))
        (("2025-01-01-NCT01234567-zh.md").data)) ∧
    getFileIdentity (("readme-zh.md").data) = ("readme-zh.md").data :=
  ⟨(C3_identity_resolution (("2025-01-01-NCT01234567-zh.md").data)).1
      ⟨("NCT01234567").data, by decide,
        ⟨("2025-01-01-").data, ("-zh.md").data, by decide⟩⟩,
    (C3_identity_resolution (("readme-zh.md").data)).2
      (no_token_no_upperN (by decide))⟩

theorem alLookup_append {α : Type} (k : Str) (a b : List (Str × α)) :
    alLookup k (a ++ b) = (alLookup k a).or (alLookup k b) := by
  induction a with
  | nil => simp [alLookup]
  | cons kv rest ih =>
    by_cases h : kv.1 = k <;> simp [alLookup, h, ih]

theorem alLookup_insert {α : Type} (k j : Str) (v : α) (m : List (Str × α)) :
    alLookup j (alInsert k v m) = if k = j then some v else alLookup j m := by
  induction m with
  | nil => simp [alInsert, alLookup]
  | cons kv rest ih =>
    simp only [alInsert]
    split_ifs with h1 h2 h2 <;> simp_all [alLookup]

theorem alLookup_eq_none {α : Type} (k : Str) (m : List (Str × α)) :
    alLookup k m = none ↔ ∀ kv ∈ m, kv.1 ≠ k := by
  induction m with
  | nil => simp [alLookup]
  | cons kv rest ih =>
    constructor
    · intro h kv' hkv'
      unfold alLookup at h
      by_cases hh : kv.1 = k
      · rw [if_pos hh] at h
        exact Option.noConfusion h
      · rw [if_neg hh] at h
        rcases List.mem_cons.mp hkv' with rfl | hmem
        · exact hh
        · exact (ih.mp h) kv' hmem
    · intro h
      unfold alLookup
      have hh : kv.1 ≠ k := h kv (List.mem_cons_self kv rest)
      rw [if_neg hh]
      exact ih.mpr (fun kv' hm => h kv' (List.mem_cons_of_mem kv hm))

theorem migrate_go_lookup (k : Str) (m : List (Str × SyncRecord)) :
    ∀ acc, alLookup k (List.foldl migrateStep acc m) =
      (alLookup k acc).or
        ((m.find? (fun kv => decide (getFileIdentity kv.1 = k))).map
          (fun kv => withFilename kv.1 kv.2)) := by
  induction m with
  | nil =>
    intro acc
    simp only [List.foldl, List.find?, Option.map_none']
    exact Option.or_none.symm
  | cons kv m' ih =>
    intro acc
    simp only [List.foldl]
    rw [ih (migrateStep acc kv)]
    unfold migrateStep
    cases hg : alLookup (getFileIdentity kv.1) acc with
    | some w =>
      by_cases hk : getFileIdentity kv.1 = k
      · rw [hk] at hg
        simp [List.find?, hk, hg]
      · simp [List.find?, hk]
    | none =>
      by_cases hk : getFileIdentity kv.1 = k
      · rw [hk] at hg
        simp [alLookup_append, hg, List.find?, hk, alLookup]
      · simp [alLookup_append, List.find?, hk, alLookup, Option.or_none]

theorem withFilename_isSome (k : Str) (r : SyncRecord) :
    (withFilename k r).filename.isSome = true := by
  unfold withFilename
  cases hr : r.filename <;> simp [hr]

theorem withFilename_of_isSome (k : Str) (r : SyncRecord)
    (h : r.filename.isSome = true) : withFilename k r = r := by
  unfold withFilename
  cases hr : r.filename with
  | none => rw [hr] at h; simp at h
  | some v => rfl

theorem migrate_go_id (m : List (Str × SyncRecord)) :
    ∀ acc, (∀ kv ∈ m, getFileIdentity kv.1 = kv.1 ∧
        kv.2.filename.isSome = true ∧ alLookup kv.1 acc = none) →
      List.Pairwise (fun a b => a.1 ≠ b.1) m →
      List.foldl migrateStep acc m = acc ++ m := by
  induction m with
  | nil => intro acc _ _; simp
  | cons kv m' ih =>
    intro acc h hp
    obtain ⟨hfix, hsome, hnone⟩ := h kv (List.mem_cons_self kv m')
    have hstep : migrateStep acc kv = acc ++ [kv] := by
      unfold migrateStep
      rw [hfix, hnone, withFilename_of_isSome kv.1 kv.2 hsome]
    rw [List.foldl_cons, hstep]
    rw [ih (acc ++ [kv]) ?ha ?hb]
    · simp
    case ha =>
      intro kv' hm
      obtain ⟨hf, hs, hn⟩ := h kv' (List.mem_cons_of_mem kv hm)
      refine ⟨hf, hs, ?_⟩
      rw [alLookup_append, hn]
      have hne : kv.1 ≠ kv'.1 := (List.pairwise_cons.mp hp).1 kv' hm
      simp [alLookup, hne]
    case hb => exact (List.pairwise_cons.mp hp).2

theorem migrate_go_inv (m : List (Str × SyncRecord)) :
    ∀ acc, migratedKeys acc → migratedKeys (List.foldl migrateStep acc m) := by
  induction m with
  | nil => intro acc h; exact h
  | cons kv m' ih =>
    intro acc h
    rw [List.foldl_cons]
    apply ih
    unfold migrateStep
    cases hg : alLookup (getFileIdentity kv.1) acc with
    | some w => exact h
    | none =>
      obtain ⟨hmem, hpw⟩ := h
      constructor
      · intro kv' hkv'
        rcases List.mem_append.mp hkv' with hin | hin
        · exact hmem kv' hin
        · have heq : kv' = (getFileIdentity kv.1, withFilename kv.1 kv.2) :=
            List.mem_singleton.mp hin
          subst heq
          exact ⟨getFileIdentity_idem kv.1, withFilename_isSome kv.1 kv.2⟩
      · rw [List.pairwise_append]
        refine ⟨hpw, List.pairwise_singleton _ _, ?_⟩
        intro a ha b hb
        have hbeq : b = (getFileIdentity kv.1, withFilename kv.1 kv.2) :=
          List.mem_singleton.mp hb
        subst hbeq
        exact (alLookup_eq_none _ _).mp hg a ha

theorem migratedKeys_migrate (m : List (Str × SyncRecord)) :
    migratedKeys (migrate m) :=
  migrate_go_inv m []
    ⟨fun kv h => absurd h (List.not_mem_nil kv), List.Pairwise.nil⟩

theorem migrate_of_migratedKeys (m : List (Str × SyncRecord))
    (h : migratedKeys m) : migrate m = m := by
  unfold migrate
  have hg := migrate_go_id m [] ?hc h.2
  · simpa using hg
  case hc =>
    intro kv hm
    obtain ⟨hf, hs⟩ := h.1 kv hm
    exact ⟨hf, hs, rfl⟩

theorem migrate_idem (m : List (Str × SyncRecord)) :
    migrate (migrate m) = migrate m :=
  migrate_of_migratedKeys _ (migratedKeys_migrate m)

theorem resolveCollection_cachehit {cfg : SyncConfig} {s : SyncState}
    {n cid : Str} (h1 : alLookup n s.cache = some cid) :
    resolveCollection cfg s n = (some cid, s) := by
  unfold resolveCollection
  rw [h1]

theorem resolveCollection_callok {cfg : SyncConfig} {s : SyncState}
    {n cid : Str} (h1 : alLookup n s.cache = none)
    (h2 : cfg.collOracle n = some cid) :
    resolveCollection cfg s n =
      (some cid, { s with collCalls := s.collCalls ++ [n],
                          cache := alInsert n cid s.cache }) := by
  unfold resolveCollection
  rw [h1, h2]

theorem resolveCollection_callfail {cfg : SyncConfig} {s : SyncState}
    {n : Str} (h1 : alLookup n s.cache = none)
    (h2 : cfg.collOracle n = none) :
    resolveCollection cfg s n =
      (none, { s with collCalls := s.collCalls ++ [n] }) := by
  unfold resolveCollection
  rw [h1, h2]

theorem resolveCollection_fst {cfg : SyncConfig} {s : SyncState}
    (h : cacheConsistent cfg s) (n : Str) :
    (resolveCollection cfg s n).1 = cfg.collOracle n := by
  cases h1 : alLookup n s.cache with
  | some cid =>
    rw [resolveCollection_cachehit h1]
    exact (h n cid h1).symm
  | none =>
    cases h2 : cfg.collOracle n with
    | some cid => rw [resolveCollection_callok h1 h2]
    | none => rw [resolveCollection_callfail h1 h2]

theorem resolveCollection_cacheConsistent {cfg : SyncConfig} {s : SyncState}
    (h : cacheConsistent cfg s) (n : Str) :
    cacheConsistent cfg (resolveCollection cfg s n).2 := by
  cases h1 : alLookup n s.cache with
  | some cid =>
    rw [resolveCollection_cachehit h1]
    exact h
  | none =>
    cases h2 : cfg.collOracle n with
    | some cid =>
      rw [resolveCollection_callok h1 h2]
      intro n' cid' hl
      simp only at hl
      rw [alLookup_insert] at hl
      by_cases hn : n = n'
      · rw [if_pos hn] at hl
        cases hl
        rw [← hn]
        exact h2
      · rw [if_neg hn] at hl
        exact h n' cid' hl
    | none =>
      rw [resolveCollection_callfail h1 h2]
      intro n' cid' hl
      exact h n' cid' hl

theorem passesMarker_zh {f : FileInfo} (h : passesMarker f = true) :
    hasSubstr zhMark f.name = true := by
  unfold passesMarker at h
  rw [Bool.and_eq_true] at h
  exact h.1

theorem processFile_marker_false {cfg : SyncConfig} {s : SyncState}
    {f : FileInfo} (h : passesMarker f = false) : processFile cfg s f = s := by
  simp [processFile, h]

theorem processFile_date_false {cfg : SyncConfig} {s : SyncState}
    {f : FileInfo} (h1 : passesMarker f = true) (h2 : passesDate cfg f = false) :
    processFile cfg s f = { s with skipped := s.skipped + 1 } := by
  simp [processFile, h1, h2]

theorem processFile_same {cfg : SyncConfig} {s : SyncState} {f : FileInfo}
    {r : SyncRecord} (h1 : passesMarker f = true) (h2 : passesDate cfg f = true)
    (h3 : alLookup (getFileIdentity f.name) s.files = some r)
    (h4 : r.hash = f.hash) :
    processFile cfg s f = { s with skipped := s.skipped + 1 } := by
  simp [processFile, h1, h2, h3, h4]

theorem processFile_upload_none {cfg : SyncConfig} {s : SyncState}
    {f : FileInfo} (h1 : passesMarker f = true) (h2 : passesDate cfg f = true)
    (h3 : alLookup (getFileIdentity f.name) s.files = none) :
    processFile cfg s f = uploadPhase cfg s f none := by
  simp [processFile, h1, h2, h3]

theorem processFile_upload_some {cfg : SyncConfig} {s : SyncState}
    {f : FileInfo} {r : SyncRecord} (h1 : passesMarker f = true)
    (h2 : passesDate cfg f = true)
    (h3 : alLookup (getFileIdentity f.name) s.files = some r)
    (h4 : ¬ r.hash = f.hash) :
    processFile cfg s f = uploadPhase cfg s f (some r) := by
  simp [processFile, h1, h2, h3, h4]

theorem uploadPhase_collfail {cfg : SyncConfig} {s : SyncState} {f : FileInfo}
    {prior : Option SyncRecord}
    (h1 : alLookup (collectionName cfg f) s.cache = none)
    (h2 : cfg.collOracle (collectionName cfg f) = none) :
    uploadPhase cfg s f prior =
      { s with collCalls := s.collCalls ++ [collectionName cfg f] } := by
  unfold uploadPhase
  rw [resolveCollection_callfail h1 h2]

theorem uploadPhase_fail {cfg : SyncConfig} {s s1 : SyncState} {f : FileInfo}
    {prior : Option SyncRecord} {cid : Str}
    (hr : resolveCollection cfg s (collectionName cfg f) = (some cid, s1))
    (hu : f.uploadOk = false) :
    uploadPhase cfg s f prior =
      { s1 with uploadAttempts := s1.uploadAttempts ++ [f.name] } := by
  unfold uploadPhase
  rw [hr]
  simp [hu]

theorem uploadPhase_ok {cfg : SyncConfig} {s s1 : SyncState} {f : FileInfo}
    {prior : Option SyncRecord} {cid : Str}
    (hr : resolveCollection cfg s (collectionName cfg f) = (some cid, s1))
    (hu : f.uploadOk = true) :
    uploadPhase cfg s f prior =
      { s1 with
        files := alInsert (getFileIdentity f.name) (mkRecord f cid) s1.files,
        added := if prior.isSome then s1.added else s1.added + 1,
        modified := if prior.isSome then s1.modified + 1 else s1.modified,
        uploadAttempts := s1.uploadAttempts ++ [f.name],
        saveLog := s1.saveLog ++
          [alInsert (getFileIdentity f.name) (mkRecord f cid) s1.files] } := by
  unfold uploadPhase
  rw [hr]
  simp [hu]

theorem uploadPhase_cacheConsistent {cfg : SyncConfig} {s : SyncState}
    {f : FileInfo} {prior : Option SyncRecord} (h : cacheConsistent cfg s) :
    cacheConsistent cfg (uploadPhase cfg s f prior) := by
  have hres := resolveCollection_cacheConsistent h (collectionName cfg f)
  cases hr : resolveCollection cfg s (collectionName cfg f) with
  | mk o s1 =>
    rw [hr] at hres
    cases o with
    | none =>
      unfold uploadPhase
      rw [hr]
      exact hres
    | some cid =>
      cases hu : f.uploadOk with
      | false =>
        rw [uploadPhase_fail hr hu]
        intro n c hl
        exact hres n c hl
      | true =>
        rw [uploadPhase_ok hr hu]
        intro n c hl
        exact hres n c hl

theorem processFile_cacheConsistent {cfg : SyncConfig} {s : SyncState}
    {f : FileInfo} (h : cacheConsistent cfg s) :
    cacheConsistent cfg (processFile cfg s f) := by
  cases hm : passesMarker f with
  | false =>
    rw [processFile_marker_false hm]
    exact h
  | true =>
    cases hd : passesDate cfg f with
    | false =>
      rw [processFile_date_false hm hd]
      intro n c hl
      exact h n c hl
    | true =>
      cases hl : alLookup (getFileIdentity f.name) s.files with
      | some r =>
        by_cases hh : r.hash = f.hash
        · rw [processFile_same hm hd hl hh]
          intro n c hc
          exact h n c hc
        · rw [processFile_upload_some hm hd hl hh]
          exact uploadPhase_cacheConsistent h
      | none =>
        rw [processFile_upload_none hm hd hl]
        exact uploadPhase_cacheConsistent h

theorem uploadPhase_write_or_skip (cfg : SyncConfig) (s : SyncState)
    (f : FileInfo) (prior : Option SyncRecord) :
    ((uploadPhase cfg s f prior).files = s.files ∧
     (uploadPhase cfg s f prior).added = s.added ∧
     (uploadPhase cfg s f prior).modified = s.modified ∧
     (uploadPhase cfg s f prior).saveLog = s.saveLog) ∨
    (f.uploadOk = true ∧ ∃ cid,
      (uploadPhase cfg s f prior).files =
        alInsert (getFileIdentity f.name) (mkRecord f cid) s.files ∧
      (uploadPhase cfg s f prior).uploadAttempts =
        s.uploadAttempts ++ [f.name]) := by
  cases hc : alLookup (collectionName cfg f) s.cache with
  | some cid =>
    have hr := @resolveCollection_cachehit cfg _ _ _ hc
    cases hu : f.uploadOk with
    | false =>
      left
      rw [uploadPhase_fail hr hu]
      exact ⟨rfl, rfl, rfl, rfl⟩
    | true =>
      right
      refine ⟨rfl, cid, ?_, ?_⟩ <;> rw [uploadPhase_ok hr hu]
  | none =>
    cases ho : cfg.collOracle (collectionName cfg f) with
    | none =>
      left
      rw [uploadPhase_collfail hc ho]
      exact ⟨rfl, rfl, rfl, rfl⟩
    | some cid =>
      have hr := resolveCollection_callok hc ho
      cases hu : f.uploadOk with
      | false =>
        left
        rw [uploadPhase_fail hr hu]
        exact ⟨rfl, rfl, rfl, rfl⟩
      | true =>
        right
        refine ⟨rfl, cid, ?_, ?_⟩ <;> rw [uploadPhase_ok hr hu]

theorem processFile_write_or_skip (cfg : SyncConfig) (s : SyncState)
    (f : FileInfo) :
    ((processFile cfg s f).files = s.files ∧
     (processFile cfg s f).added = s.added ∧
     (processFile cfg s f).modified = s.modified ∧
     (processFile cfg s f).saveLog = s.saveLog) ∨
    (eligibleFile cfg f = true ∧ f.uploadOk = true ∧ ∃ cid,
      (processFile cfg s f).files =
        alInsert (getFileIdentity f.name) (mkRecord f cid) s.files ∧
      (processFile cfg s f).uploadAttempts =
        s.uploadAttempts ++ [f.name]) := by
  cases hm : passesMarker f with
  | false =>
    left
    rw [processFile_marker_false hm]
    exact ⟨rfl, rfl, rfl, rfl⟩
  | true =>
    cases hd : passesDate cfg f with
    | false =>
      left
      rw [processFile_date_false hm hd]
      exact ⟨rfl, rfl, rfl, rfl⟩
    | true =>
      have helig : eligibleFile cfg f = true := by
        simp [eligibleFile, hm, hd]
      cases hl : alLookup (getFileIdentity f.name) s.files with
      | some r =>
        by_cases hh : r.hash = f.hash
        · left
          rw [processFile_same hm hd hl hh]
          exact ⟨rfl, rfl, rfl, rfl⟩
        · rw [processFile_upload_some hm hd hl hh]
          rcases uploadPhase_write_or_skip cfg s f (some r) with hskip | hwrite
          · exact Or.inl hskip
          · exact Or.inr ⟨helig, hwrite.1, hwrite.2⟩
      | none =>
        rw [processFile_upload_none hm hd hl]
        rcases uploadPhase_write_or_skip cfg s f none with hskip | hwrite
        · exact Or.inl hskip
        · exact Or.inr ⟨helig, hwrite.1, hwrite.2⟩

theorem processFile_failed_upload (cfg : SyncConfig) (s : SyncState)
    (f : FileInfo) (hu : f.uploadOk = false) :
    (processFile cfg s f).files = s.files ∧
    (processFile cfg s f).added = s.added ∧
    (processFile cfg s f).modified = s.modified ∧
    (processFile cfg s f).saveLog = s.saveLog := by
  rcases processFile_write_or_skip cfg s f with hskip | hwrite
  · exact hskip
  · rw [hu] at hwrite
    exact absurd hwrite.2.1 (by simp)

theorem uploadPhase_attempts (cfg : SyncConfig) (s : SyncState)
    (f : FileInfo) (prior : Option SyncRecord) :
    (uploadPhase cfg s f prior).uploadAttempts = s.uploadAttempts ∨
    (uploadPhase cfg s f prior).uploadAttempts =
      s.uploadAttempts ++ [f.name] := by
  cases hc : alLookup (collectionName cfg f) s.cache with
  | some cid =>
    have hr := @resolveCollection_cachehit cfg _ _ _ hc
    cases hu : f.uploadOk with
    | false => right; rw [uploadPhase_fail hr hu]
    | true => right; rw [uploadPhase_ok hr hu]
  | none =>
    cases ho : cfg.collOracle (collectionName cfg f) with
    | none =>
      left
      rw [uploadPhase_collfail hc ho]
    | some cid =>
      have hr := resolveCollection_callok hc ho
      cases hu : f.uploadOk with
      | false => right; rw [uploadPhase_fail hr hu]
      | true => right; rw [uploadPhase_ok hr hu]

theorem processFile_attempts (cfg : SyncConfig) (s : SyncState) (f : FileInfo) :
    (processFile cfg s f).uploadAttempts = s.uploadAttempts ∨
    (hasSubstr zhMark f.name = true ∧
      (processFile cfg s f).uploadAttempts = s.uploadAttempts ++ [f.name]) := by
  cases hm : passesMarker f with
  | false =>
    left
    rw [processFile_marker_false hm]
  | true =>
    have hzh := passesMarker_zh hm
    cases hd : passesDate cfg f with
    | false =>
      left
      rw [processFile_date_false hm hd]
    | true =>
      cases hl : alLookup (getFileIdentity f.name) s.files with
      | some r =>
        by_cases hh : r.hash = f.hash
        · left
          rw [processFile_same hm hd hl hh]
        · rw [processFile_upload_some hm hd hl hh]
          rcases uploadPhase_attempts cfg s f (some r) with ha | ha
          · exact Or.inl ha
          · exact Or.inr ⟨hzh, ha⟩
      | none =>
        rw [processFile_upload_none hm hd hl]
        rcases uploadPhase_attempts cfg s f none with ha | ha
        · exact Or.inl ha
        · exact Or.inr ⟨hzh, ha⟩

theorem uploadPhase_saveLog (cfg : SyncConfig) (s : SyncState)
    (f : FileInfo) (prior : Option SyncRecord) :
    ∃ add, (uploadPhase cfg s f prior).saveLog = s.saveLog ++ add := by
  cases hc : alLookup (collectionName cfg f) s.cache with
  | some cid =>
    have hr := @resolveCollection_cachehit cfg _ _ _ hc
    cases hu : f.uploadOk with
    | false =>
      refine ⟨[], ?_⟩
      rw [uploadPhase_fail hr hu]
      simp
    | true =>
      refine ⟨[alInsert (getFileIdentity f.name) (mkRecord f cid) s.files], ?_⟩
      rw [uploadPhase_ok hr hu]
  | none =>
    cases ho : cfg.collOracle (collectionName cfg f) with
    | none =>
      refine ⟨[], ?_⟩
      rw [uploadPhase_collfail hc ho]
      simp
    | some cid =>
      have hr := resolveCollection_callok hc ho
      cases hu : f.uploadOk with
      | false =>
        refine ⟨[], ?_⟩
        rw [uploadPhase_fail hr hu]
        simp
      | true =>
        refine ⟨[alInsert (getFileIdentity f.name) (mkRecord f cid) s.files], ?_⟩
        rw [uploadPhase_ok hr hu]

theorem processFile_saveLog (cfg : SyncConfig) (s : SyncState) (f : FileInfo) :
    ∃ add, (processFile cfg s f).saveLog = s.saveLog ++ add := by
  cases hm : passesMarker f with
  | false =>
    refine ⟨[], ?_⟩
    rw [processFile_marker_false hm]
    simp
  | true =>
    cases hd : passesDate cfg f with
    | false =>
      refine ⟨[], ?_⟩
      rw [processFile_date_false hm hd]
      simp
    | true =>
      cases hl : alLookup (getFileIdentity f.name) s.files with
      | some r =>
        by_cases hh : r.hash = f.hash
        · refine ⟨[], ?_⟩
          rw [processFile_same hm hd hl hh]
          simp
        · rw [processFile_upload_some hm hd hl hh]
          exact uploadPhase_saveLog cfg s f (some r)
      | none =>
        rw [processFile_upload_none hm hd hl]
        exact uploadPhase_saveLog cfg s f none

theorem mem_alInsert {α : Type} {b : Str × α} {k : Str} {v : α} :
    ∀ {m : List (Str × α)}, b ∈ alInsert k v m → b = (k, v) ∨ b ∈ m := by
  intro m
  induction m with
  | nil =>
    intro h
    rcases List.mem_singleton.mp h with rfl
    exact Or.inl rfl
  | cons kv rest ih =>
    intro h
    unfold alInsert at h
    by_cases he : kv.1 = k
    · rw [if_pos he] at h
      rcases List.mem_cons.mp h with rfl | hin
      · exact Or.inl rfl
      · exact Or.inr (List.mem_cons_of_mem kv hin)
    · rw [if_neg he] at h
      rcases List.mem_cons.mp h with rfl | hin
      · exact Or.inr (List.mem_cons_self _ _)
      · rcases ih hin with h1 | h2
        · exact Or.inl h1
        · exact Or.inr (List.mem_cons_of_mem kv h2)

theorem migratedKeys_alInsert :
    ∀ (m : List (Str × SyncRecord)) (k : Str) (r : SyncRecord),
      migratedKeys m → getFileIdentity k = k → r.filename.isSome = true →
      migratedKeys (alInsert k r m) := by
  intro m
  induction m with
  | nil =>
    intro k r _ hk hr
    refine ⟨?_, List.pairwise_singleton _ _⟩
    intro kv hkv
    rcases List.mem_singleton.mp hkv with rfl
    exact ⟨hk, hr⟩
  | cons kv rest ih =>
    intro k r h hk hr
    obtain ⟨hmem, hpw⟩ := h
    unfold alInsert
    by_cases he : kv.1 = k
    · rw [if_pos he]
      constructor
      · intro kv' hkv'
        rcases List.mem_cons.mp hkv' with rfl | hin
        · exact ⟨hk, hr⟩
        · exact hmem kv' (List.mem_cons_of_mem kv hin)
      · rw [List.pairwise_cons]
        refine ⟨?_, (List.pairwise_cons.mp hpw).2⟩
        intro b hb
        have hne := (List.pairwise_cons.mp hpw).1 b hb
        rw [← he]
        exact hne
    · rw [if_neg he]
      have hrest := ih k r
        ⟨fun kv' h' => hmem kv' (List.mem_cons_of_mem kv h'),
          (List.pairwise_cons.mp hpw).2⟩ hk hr
      constructor
      · intro kv' hkv'
        rcases List.mem_cons.mp hkv' with rfl | hin
        · exact hmem kv' (List.mem_cons_self _ _)
        · exact hrest.1 kv' hin
      · rw [List.pairwise_cons]
        refine ⟨?_, hrest.2⟩
        intro b hb
        rcases mem_alInsert hb with rfl | hbr
        · exact he
        · exact (List.pairwise_cons.mp hpw).1 b hbr

theorem processFile_migratedKeys {cfg : SyncConfig} {s : SyncState}
    {f : FileInfo} (h : migratedKeys s.files) :
    migratedKeys (processFile cfg s f).files := by
  rcases processFile_write_or_skip cfg s f with hskip | hwrite
  · rw [hskip.1]
    exact h
  · obtain ⟨-, -, cid, hfiles, -⟩ := hwrite
    rw [hfiles]
    exact migratedKeys_alInsert s.files (getFileIdentity f.name)
      (mkRecord f cid) h (getFileIdentity_idem f.name) rfl

theorem foldl_saveLog (cfg : SyncConfig) (fs : List FileInfo) :
    ∀ s : SyncState, ∃ add,
      (fs.foldl (processFile cfg) s).saveLog = s.saveLog ++ add := by
  induction fs with
  | nil =>
    intro s
    exact ⟨[], by simp⟩
  | cons f rest ih =>
    intro s
    obtain ⟨a1, h1⟩ := processFile_saveLog cfg s f
    obtain ⟨a2, h2⟩ := ih (processFile cfg s f)
    refine ⟨a1 ++ a2, ?_⟩
    rw [List.foldl_cons, h2, h1, List.append_assoc]

theorem foldl_migratedKeys (cfg : SyncConfig) (fs : List FileInfo) :
    ∀ s : SyncState, migratedKeys s.files →
      migratedKeys ((fs.foldl (processFile cfg) s).files) := by
  induction fs with
  | nil => intro s h; exact h
  | cons f rest ih =>
    intro s h
    rw [List.foldl_cons]
    exact ih (processFile cfg s f) (processFile_migratedKeys h)

theorem foldl_cacheConsistent (cfg : SyncConfig) (fs : List FileInfo) :
    ∀ s : SyncState, cacheConsistent cfg s →
      cacheConsistent cfg (fs.foldl (processFile cfg) s) := by
  induction fs with
  | nil => intro s h; exact h
  | cons f rest ih =>
    intro s h
    rw [List.foldl_cons]
    exact ih (processFile cfg s f) (processFile_cacheConsistent h)

theorem processFile_keeps_record {cfg : SyncConfig} {s : SyncState}
    {f : FileInfo} {i hsh : Str}
    (hrec : ∃ r, alLookup i s.files = some r ∧ r.hash = hsh)
    (hcond : eligibleFile cfg f = true → getFileIdentity f.name = i →
      f.hash = hsh) :
    ∃ r, alLookup i (processFile cfg s f).files = some r ∧ r.hash = hsh := by
  rcases processFile_write_or_skip cfg s f with hskip | hwrite
  · rw [hskip.1]
    exact hrec
  · obtain ⟨helig, hok, cid, hfiles, -⟩ := hwrite
    rw [hfiles, alLookup_insert]
    by_cases hi : getFileIdentity f.name = i
    · rw [if_pos hi]
      exact ⟨mkRecord f cid, rfl, hcond helig hi⟩
    · rw [if_neg hi]
      exact hrec

theorem foldl_keeps_record (cfg : SyncConfig) (fs : List FileInfo)
    (i hsh : Str) :
    ∀ s : SyncState, (∃ r, alLookup i s.files = some r ∧ r.hash = hsh) →
      (∀ f ∈ fs, eligibleFile cfg f = true → getFileIdentity f.name = i →
        f.hash = hsh) →
      ∃ r, alLookup i ((fs.foldl (processFile cfg) s).files) = some r ∧
        r.hash = hsh := by
  induction fs with
  | nil => intro s hrec _; exact hrec
  | cons f rest ih =>
    intro s hrec hcond
    rw [List.foldl_cons]
    exact ih (processFile cfg s f)
      (processFile_keeps_record hrec
        (hcond f (List.mem_cons_self f rest)))
      (fun g hg => hcond g (List.mem_cons_of_mem f hg))

theorem resolveCollection_callsInv {cfg : SyncConfig} {s : SyncState}
    {n0 : Str} (h : callsInv cfg s) :
    callsInv cfg (resolveCollection cfg s n0).2 := by
  cases h1 : alLookup n0 s.cache with
  | some cid =>
    rw [resolveCollection_cachehit h1]
    exact h
  | none =>
    cases h2 : cfg.collOracle n0 with
    | some cid =>
      rw [resolveCollection_callok h1 h2]
      intro n hn
      by_cases he : n0 = n
      · subst he
        have hzero : s.collCalls.count n0 = 0 := by
          by_contra hnz
          have h1le : 1 ≤ s.collCalls.count n0 :=
            Nat.one_le_iff_ne_zero.mpr hnz
          have hcached := (h n0 hn).2 h1le
          rw [h1] at hcached
          simp at hcached
        constructor
        · simp [List.count_append, hzero, List.count_singleton_self]
        · intro _
          rw [alLookup_insert, if_pos rfl]
          simp
      · have hc1 : List.count n [n0] = 0 := by
          simp [List.count_singleton]
          intro hx
          exact absurd hx he
        constructor
        · simp only [List.count_append, hc1, Nat.add_zero]
          exact (h n hn).1
        · intro hge
          simp only [List.count_append, hc1, Nat.add_zero] at hge
          have hpre := (h n hn).2 hge
          rw [alLookup_insert, if_neg he]
          exact hpre
    | none =>
      rw [resolveCollection_callfail h1 h2]
      intro n hn
      by_cases he : n0 = n
      · subst he
        rw [h2] at hn
        simp at hn
      · have hc1 : List.count n [n0] = 0 := by
          simp [List.count_singleton]
          intro hx
          exact absurd hx he
        constructor
        · simp only [List.count_append, hc1, Nat.add_zero]
          exact (h n hn).1
        · intro hge
          simp only [List.count_append, hc1, Nat.add_zero] at hge
          exact (h n hn).2 hge

theorem uploadPhase_callsInv {cfg : SyncConfig} {s : SyncState}
    {f : FileInfo} {prior : Option SyncRecord} (h : callsInv cfg s) :
    callsInv cfg (uploadPhase cfg s f prior) := by
  have hres := @resolveCollection_callsInv cfg s (collectionName cfg f) h
  cases hr : resolveCollection cfg s (collectionName cfg f) with
  | mk o s1 =>
    rw [hr] at hres
    cases o with
    | none =>
      unfold uploadPhase
      rw [hr]
      exact hres
    | some cid =>
      cases hu : f.uploadOk with
      | false =>
        rw [uploadPhase_fail hr hu]
        exact hres
      | true =>
        rw [uploadPhase_ok hr hu]
        exact hres

theorem processFile_callsInv {cfg : SyncConfig} {s : SyncState}
    {f : FileInfo} (h : callsInv cfg s) :
    callsInv cfg (processFile cfg s f) := by
  cases hm : passesMarker f with
  | false =>
    rw [processFile_marker_false hm]
    exact h
  | true =>
    cases hd : passesDate cfg f with
    | false =>
      rw [processFile_date_false hm hd]
      exact h
    | true =>
      cases hl : alLookup (getFileIdentity f.name) s.files with
      | some r =>
        by_cases hh : r.hash = f.hash
        · rw [processFile_same hm hd hl hh]
          exact h
        · rw [processFile_upload_some hm hd hl hh]
          exact uploadPhase_callsInv h
      | none =>
        rw [processFile_upload_none hm hd hl]
        exact uploadPhase_callsInv h

theorem foldl_callsInv (cfg : SyncConfig) (fs : List FileInfo) :
    ∀ s : SyncState, callsInv cfg s →
      callsInv cfg (fs.foldl (processFile cfg) s) := by
  induction fs with
  | nil => intro s h; exact h
  | cons f rest ih =>
    intro s h
    rw [List.foldl_cons]
    exact ih (processFile cfg s f) (processFile_callsInv h)

theorem processFile_establishes_record {cfg : SyncConfig} {s : SyncState}
    {f : FileInfo} (helig : eligibleFile cfg f = true)
    (hu : f.uploadOk = true)
    (hoc : (cfg.collOracle (collectionName cfg f)).isSome = true) :
    ∃ r, alLookup (getFileIdentity f.name)
      ((processFile cfg s f).files) = some r ∧ r.hash = f.hash := by
  have hmhd := helig
  unfold eligibleFile at hmhd
  rw [Bool.and_eq_true] at hmhd
  obtain ⟨hm, hd⟩ := hmhd
  obtain ⟨cid, hcid⟩ := Option.isSome_iff_exists.mp hoc
  cases hl : alLookup (getFileIdentity f.name) s.files with
  | some r =>
    by_cases hh : r.hash = f.hash
    · rw [processFile_same hm hd hl hh]
      exact ⟨r, hl, hh⟩
    · rw [processFile_upload_some hm hd hl hh]
      cases hc : alLookup (collectionName cfg f) s.cache with
      | some cid' =>
        rw [uploadPhase_ok (resolveCollection_cachehit hc) hu]
        exact ⟨_, by rw [alLookup_insert, if_pos rfl], rfl⟩
      | none =>
        rw [uploadPhase_ok (resolveCollection_callok hc hcid) hu]
        exact ⟨_, by rw [alLookup_insert, if_pos rfl], rfl⟩
  | none =>
    rw [processFile_upload_none hm hd hl]
    cases hc : alLookup (collectionName cfg f) s.cache with
    | some cid' =>
      rw [uploadPhase_ok (resolveCollection_cachehit hc) hu]
      exact ⟨_, by rw [alLookup_insert, if_pos rfl], rfl⟩
    | none =>
      rw [uploadPhase_ok (resolveCollection_callok hc hcid) hu]
      exact ⟨_, by rw [alLookup_insert, if_pos rfl], rfl⟩

theorem foldl_covers (cfg : SyncConfig) (fs : List FileInfo) :
    ∀ s : SyncState,
      (∀ f ∈ fs, ∀ g ∈ fs, eligibleFile cfg f = true →
        eligibleFile cfg g = true →
        getFileIdentity f.name = getFileIdentity g.name → f.hash = g.hash) →
      (∀ f ∈ fs, eligibleFile cfg f = true → f.uploadOk = true ∧
        (cfg.collOracle (collectionName cfg f)).isSome = true) →
      ∀ f ∈ fs, eligibleFile cfg f = true →
        ∃ r, alLookup (getFileIdentity f.name)
          ((fs.foldl (processFile cfg) s).files) = some r ∧
          r.hash = f.hash := by
  induction fs with
  | nil =>
    intro s _ _ f hf
    cases hf
  | cons g rest ih =>
    intro s hcons hok f hf helig
    rw [List.foldl_cons]
    rcases List.mem_cons.mp hf with rfl | hfr
    · obtain ⟨hu, hoc⟩ := hok f (List.mem_cons_self f rest)  helig
      have hstep := @processFile_establishes_record cfg s f helig hu hoc
      exact foldl_keeps_record cfg rest (getFileIdentity f.name) f.hash
        (processFile cfg s f) hstep
        (fun g' hg' helig' hid =>
          hcons g' (List.mem_cons_of_mem f hg') f
            (List.mem_cons_self f rest) helig' helig hid)
    · exact ih (processFile cfg s g)
        (fun a ha b hb ea eb eid =>
          hcons a (List.mem_cons_of_mem g ha) b
            (List.mem_cons_of_mem g hb) ea eb eid)
        (fun a ha ea => hok a (List.mem_cons_of_mem g ha) ea)
        f hfr helig

theorem foldl_allskip (cfg : SyncConfig) (fs : List FileInfo) :
    ∀ s : SyncState,
      (∀ f ∈ fs, eligibleFile cfg f = true →
        ∃ r, alLookup (getFileIdentity f.name) s.files = some r ∧
          r.hash = f.hash) →
      ((fs.foldl (processFile cfg) s).files = s.files ∧
       (fs.foldl (processFile cfg) s).added = s.added ∧
       (fs.foldl (processFile cfg) s).modified = s.modified ∧
       (fs.foldl (processFile cfg) s).uploadAttempts = s.uploadAttempts) := by
  induction fs with
  | nil =>
    intro s _
    exact ⟨rfl, rfl, rfl, rfl⟩
  | cons f rest ih =>
    intro s hrec
    rw [List.foldl_cons]
    have hstep : (processFile cfg s f).files = s.files ∧
        (processFile cfg s f).added = s.added ∧
        (processFile cfg s f).modified = s.modified ∧
        (processFile cfg s f).uploadAttempts = s.uploadAttempts := by
      cases hm : passesMarker f with
      | false =>
        rw [processFile_marker_false hm]
        exact ⟨rfl, rfl, rfl, rfl⟩
      | true =>
        cases hd : passesDate cfg f with
        | false =>
          rw [processFile_date_false hm hd]
          exact ⟨rfl, rfl, rfl, rfl⟩
        | true =>
          have helig : eligibleFile cfg f = true := by
            simp [eligibleFile, hm, hd]
          obtain ⟨r, hl, hh⟩ := hrec f (List.mem_cons_self f rest) helig
          rw [processFile_same hm hd hl hh]
          exact ⟨rfl, rfl, rfl, rfl⟩
    obtain ⟨hf1, hf2, hf3, hf4⟩ := hstep
    have hrec' : ∀ g ∈ rest, eligibleFile cfg g = true →
        ∃ r, alLookup (getFileIdentity g.name)
          (processFile cfg s f).files = some r ∧ r.hash = g.hash := by
      intro g hg hege
      rw [hf1]
      exact hrec g (List.mem_cons_of_mem f hg) hege
    obtain ⟨h1, h2, h3, h4⟩ := ih (processFile cfg s f) hrec'
    exact ⟨h1.trans hf1, h2.trans hf2, h3.trans hf3, h4.trans hf4⟩

theorem runFsOps_cons (fs : FsState) (op : FsOp) (ops : List FsOp) :
    runFsOps fs (op :: ops) = runFsOps (applyFsOp fs op) ops := rfl

theorem runFsOps_writeChunks (chunks : List Str) :
    ∀ (fs : FsState) (acc : Str), fs.mainFile = some acc →
      ((runFsOps fs (chunks.map FsOp.writeChunk)).mainFile =
        some (acc ++ chunks.flatten) ∧
       (runFsOps fs (chunks.map FsOp.writeChunk)).parentExists =
         fs.parentExists ∧
       (runFsOps fs (chunks.map FsOp.writeChunk)).tempFiles = fs.tempFiles) := by
  induction chunks with
  | nil =>
    intro fs acc h
    refine ⟨?_, rfl, rfl⟩
    simp [runFsOps, h]
  | cons c cs ih =>
    intro fs acc h
    rw [List.map_cons, runFsOps_cons]
    have happ : (applyFsOp fs (FsOp.writeChunk c)).mainFile = some (acc ++ c) := by
      simp [applyFsOp, h]
    obtain ⟨ha, hb, hc⟩ := ih (applyFsOp fs (FsOp.writeChunk c)) (acc ++ c) happ
    refine ⟨?_, hb.trans rfl, hc.trans rfl⟩
    rw [ha, List.flatten_cons, List.append_assoc]

theorem saveNotCrashSafe : ¬ saveCrashSafe := fun h =>
  absurd (h (("OLD").data) [(("NEW").data)] 2) (by decide)

theorem uploadFileGo_att_le (o : Nat → UploadOutcome) (T D : Nat) :
    ∀ (r a : Nat), (uploadFileGo o T D a r).2.1 ≤ r := by
  intro r
  induction r with
  | zero =>
    intro a
    simp [uploadFileGo]
  | succ n ih =>
    intro a
    by_cases hok : uploadOutcomeOk (o a) = true
    · simp [uploadFileGo, hok]
    · simp only [uploadFileGo, hok, if_false, Bool.false_eq_true]
      have := ih (a + 1)
      omega

theorem uploadFileGo_true_iff (o : Nat → UploadOutcome) (T D : Nat) :
    ∀ (r a : Nat), (uploadFileGo o T D a r).1 = true ↔
      ∃ k, a ≤ k ∧ k < a + r ∧ uploadOutcomeOk (o k) = true := by
  intro r
  induction r with
  | zero =>
    intro a
    constructor
    · intro h
      simp [uploadFileGo] at h
    · rintro ⟨k, h1, h2, -⟩
      omega
  | succ n ih =>
    intro a
    by_cases hok : uploadOutcomeOk (o a) = true
    · refine iff_of_true (by simp [uploadFileGo, hok]) ⟨a, Nat.le_refl a, by omega, hok⟩
    · have heq : (uploadFileGo o T D a (n + 1)).1 =
          (uploadFileGo o T D (a + 1) n).1 := by
        simp [uploadFileGo, hok]
      rw [heq, ih (a + 1)]
      constructor
      · rintro ⟨k, h1, h2, h3⟩
        exact ⟨k, by omega, by omega, h3⟩
      · rintro ⟨k, h1, h2, h3⟩
        have hka : ¬ k = a := fun hka => hok (hka ▸ h3)
        exact ⟨k, by omega, by omega, h3⟩

theorem uploadFileGo_step_fail (o : Nat → UploadOutcome) (T D a n : Nat)
    (hok : ¬ uploadOutcomeOk (o a) = true) :
    uploadFileGo o T D a (n + 1) =
      ((uploadFileGo o T D (a + 1) n).1,
       (uploadFileGo o T D (a + 1) n).2.1 + 1,
       (if a < T - 1 then D else 0) + (uploadFileGo o T D (a + 1) n).2.2) := by
  conv =>
    lhs
    rw [uploadFileGo]
  rw [if_neg hok]

theorem uploadFileGo_false (o : Nat → UploadOutcome) (T D : Nat) :
    ∀ (r a : Nat), a + r = T → (uploadFileGo o T D a r).1 = false →
      (uploadFileGo o T D a r).2.1 = r ∧
      (uploadFileGo o T D a r).2.2 = (r - 1) * D := by
  intro r
  induction r with
  | zero =>
    intro a _ _
    simp [uploadFileGo]
  | succ n ih =>
    intro a hT hfalse
    by_cases hok : uploadOutcomeOk (o a) = true
    · exfalso
      simp [uploadFileGo, hok] at hfalse
    · have hstep := uploadFileGo_step_fail o T D a n hok
      have hfalse2 : (uploadFileGo o T D (a + 1) n).1 = false := by
        rw [hstep] at hfalse
        exact hfalse
      have hrec := ih (a + 1) (by omega) hfalse2
      constructor
      · rw [hstep]
        simp [hrec.1]
      · rw [hstep]
        cases n with
        | zero =>
          have hna : ¬ a < T - 1 := by omega
          simp [hna, hrec.2]
        | succ mm =>
          have hna : a < T - 1 := by omega
          rw [if_pos hna, hrec.2]
          show D + (mm + 1 - 1) * D = (mm + 1 + 1 - 1) * D
          simp only [Nat.add_sub_cancel]
          ring

theorem getOrCreateCollection_calls_le (lists : Nat → ListResult)
    (creates : Nat → CreateResult) :
    (getOrCreateCollection lists creates).2 ≤ 2 := by
  unfold getOrCreateCollection
  cases lists 0 with
  | exc => simp
  | found cid => simp
  | bad =>
    cases creates 0 with
    | exc => simp
    | bad => simp
    | ok cid => simp

theorem getOrCreateCollection_first_only (lists : Nat → ListResult)
    (creates : Nat → CreateResult) (lists' : Nat → ListResult)
    (creates' : Nat → CreateResult) (h1 : lists' 0 = lists 0)
    (h2 : creates' 0 = creates 0) :
    getOrCreateCollection lists' creates' =
      getOrCreateCollection lists creates := by
  unfold getOrCreateCollection
  rw [h1, h2]

/-- Claim C8 (confirmed): for every eligible file the grouping name is
derived as the immediate parent directory name, replaced by the
grandparent when the parent is a known variant subdirectory name, forced
to the reserved archive marker when any path segment equals it, and
falling back to the fixed default grouping name when no usable name
remains — the source derivation coincides with the policy as the spec
words it. -/
theorem C8_grouping_name (cfg : SyncConfig) (f : FileInfo) :
    collectionName cfg f = groupingNameSpec cfg f := by
  unfold collectionName groupingNameSpec
  simp only [List.mem_cons, List.not_mem_nil, or_false]

theorem foldl_attempts_marker (cfg : SyncConfig) (fs : List FileInfo) :
    ∀ (s0 : SyncState),
      (∀ x ∈ s0.uploadAttempts, hasSubstr zhMark x = true) →
      ∀ x ∈ ((fs.foldl (processFile cfg) s0).uploadAttempts),
        hasSubstr zhMark x = true := by
  induction fs with
  | nil => intro s0 h0; exact h0
  | cons g rest ih =>
    intro s0 h0
    rw [List.foldl_cons]
    apply ih
    rcases processFile_attempts cfg s0 g with ha | ⟨hzh, ha⟩
    · rw [ha]
      exact h0
    · rw [ha]
      intro x hx
      rcases List.mem_append.mp hx with hx1 | hx2
      · exact h0 x hx1
      · rcases List.mem_singleton.mp hx2 with rfl
        exact hzh

/-- Claim C9 (confirmed): a file whose name does not contain the
translated marker substring is silently dropped by the per-file loop —
the state is returned entirely unchanged, before identity resolution,
fingerprinting, classification or upload — and consequently, in any run
and under either filter mode, every name an upload is ever attempted for
contains the marker. -/
theorem C9_marker_filter (cfg : SyncConfig) (s : SyncState) (f : FileInfo)
    (h : hasSubstr zhMark f.name = false) :
    processFile cfg s f = s ∧
    ∀ (m : List (Str × SyncRecord)) (fs : List FileInfo) (n : Str),
      n ∈ (runSync cfg m fs).uploadAttempts → hasSubstr zhMark n = true := by
  constructor
  · apply processFile_marker_false
    simp [passesMarker, h]
  · intro m fs n hn
    exact foldl_attempts_marker cfg fs (initState m)
      (fun x hx => absurd hx (List.not_mem_nil x)) n hn

/-- Witness for C9 at a concrete marker-free filename. -/
theorem C9_marker_filter_witness :
    processFile cfgA (initState []) fileNoZh = initState [] :=
  (C9_marker_filter cfgA (initState []) fileNoZh (by decide)).1

/-- Claim C10 (confirmed): the skipped counter conflates two causes and
omits a third — it is incremented for files excluded by the today date
rule and for unchanged files with a matching record, while files
excluded by the marker inclusion rule are counted in none of added,
modified, or skipped (the state is returned unchanged). -/
theorem C10_skipped_semantics (cfg : SyncConfig) (s : SyncState)
    (f : FileInfo) :
    (passesMarker f = false → processFile cfg s f = s) ∧
    (passesMarker f = true → passesDate cfg f = false →
      processFile cfg s f = { s with skipped := s.skipped + 1 }) ∧
    (passesMarker f = true → passesDate cfg f = true →
      ∀ r, alLookup (getFileIdentity f.name) s.files = some r →
        r.hash = f.hash →
        processFile cfg s f = { s with skipped := s.skipped + 1 }) := by
  refine ⟨processFile_marker_false, processFile_date_false, ?_⟩
  intro h1 h2 r h3 h4
  exact processFile_same h1 h2 h3 h4

/-- Witness for C10 at a concrete yesterday-dated file in today mode. -/
theorem C10_skipped_semantics_witness :
    processFile cfgT (initState []) fileOld =
      { initState [] with skipped := (initState []).skipped + 1 } :=
  (C10_skipped_semantics cfgT (initState []) fileOld).2.1 (by decide) (by decide)

/-- Claim C2 (confirmed): when a file upload fails after exhausting its
attempts, any prior record for the identity is left completely unchanged,
the state store is not persisted for that file and neither the added nor
the modified count moves; moreover for every file the mapping either
stays as it was or is changed exactly by writing, at the file identity,
the record whose hash is the fingerprint of the uploaded bytes — and only
on a successful upload. -/
theorem C2_failed_upload (cfg : SyncConfig) (s : SyncState) (f : FileInfo)
    (h : f.uploadOk = false) :
    (processFile cfg s f).files = s.files ∧
    (processFile cfg s f).added = s.added ∧
    (processFile cfg s f).modified = s.modified ∧
    (processFile cfg s f).saveLog = s.saveLog ∧
    ∀ (t : SyncState) (g : FileInfo),
      (processFile cfg t g).files = t.files ∨
      (g.uploadOk = true ∧ ∃ cid,
        (processFile cfg t g).files =
          alInsert (getFileIdentity g.name) (mkRecord g cid) t.files) := by
  obtain ⟨h1, h2, h3, h4⟩ := processFile_failed_upload cfg s f h
  refine ⟨h1, h2, h3, h4, ?_⟩
  intro t g
  rcases processFile_write_or_skip cfg t g with hs | hw
  · exact Or.inl hs.1
  · obtain ⟨-, hok, cid, hc, -⟩ := hw
    exact Or.inr ⟨hok, cid, hc⟩

/-- Witness for C2 at a concrete file whose upload fails. -/
theorem C2_failed_upload_witness :
    (processFile cfgA (initState []) fileFail).files = (initState []).files ∧
    (processFile cfgA (initState []) fileFail).added = (initState []).added :=
  ⟨(C2_failed_upload cfgA (initState []) fileFail (by decide)).1,
   (C2_failed_upload cfgA (initState []) fileFail (by decide)).2.1⟩

/-- Claim C4 (confirmed): migration re-keys every legacy record by
passing its old key through the identity resolver, keeping for each new
identity the first old entry encountered in the store iteration order
(later conflicting ones are dropped); migration is idempotent on an
already-migrated mapping; and on every run the migrated mapping is the
first state persisted, even when no key changed. -/
theorem C4_migration (m : List (Str × SyncRecord)) (cfg : SyncConfig)
    (fs : List FileInfo) :
    (∀ k, alLookup k (migrate m) =
      (m.find? (fun kv => decide (getFileIdentity kv.1 = k))).map
        (fun kv => withFilename kv.1 kv.2)) ∧
    migrate (migrate m) = migrate m ∧
    ∃ rest, (runSync cfg m fs).saveLog = migrate m :: rest := by
  refine ⟨?_, migrate_idem m, ?_⟩
  · intro k
    have hg := migrate_go_lookup k m []
    simpa [migrate, alLookup] using hg
  · obtain ⟨add, hadd⟩ := foldl_saveLog cfg fs (initState m)
    exact ⟨add, hadd⟩

/-- Claim C5 (corrected): saving the state store creates any missing
parent directory and, run to completion, rewrites the file to exactly the
full serialized mapping without ever producing another copy; but the
write is performed in place (open-truncate-then-write, no temporary file
and no rename), so an interrupted save can leave a half-written file as
the only on-disk copy. -/
theorem C5_save_in_place (fs0 : FsState) (chunks : List Str) :
    (runFsOps fs0 (saveStateOps chunks)).parentExists = true ∧
    (runFsOps fs0 (saveStateOps chunks)).mainFile = some chunks.flatten ∧
    (runFsOps fs0 (saveStateOps chunks)).tempFiles = fs0.tempFiles ∧
    ¬ saveCrashSafe := by
  have h2 : runFsOps fs0 (saveStateOps chunks) =
      runFsOps
        { parentExists := true, mainFile := some [],
          tempFiles := fs0.tempFiles } (chunks.map FsOp.writeChunk) := rfl
  obtain ⟨ha, hb, hc⟩ := runFsOps_writeChunks chunks
    { parentExists := true, mainFile := some [],
      tempFiles := fs0.tempFiles } [] rfl
  rw [h2]
  refine ⟨hb.trans rfl, ?_, hc.trans rfl, saveNotCrashSafe⟩
  rw [ha]
  simp

/-- Counterexample for C5: interrupting the save of new content over old
content right after the in-place truncation leaves an empty file that is
neither the old nor the new content, with no other copy anywhere — the
write-to-temp-then-rename discipline the claim asserts is absent. -/
theorem C5_counterexample :
    ((runFsOps
        { parentExists := true, mainFile := some (("OLD").data),
          tempFiles := [] } ((saveStateOps [(("NEW").data)]).take 2)).mainFile ≠
      some (("OLD").data) ∧
     (runFsOps
        { parentExists := true, mainFile := some (("OLD").data),
          tempFiles := [] } ((saveStateOps [(("NEW").data)]).take 2)).mainFile ≠
      some ([(("NEW").data)].flatten) ∧
     (runFsOps
        { parentExists := true, mainFile := some (("OLD").data),
          tempFiles := [] } ((saveStateOps [(("NEW").data)]).take 2)).tempFiles
        = []) ∧
    ¬ saveCrashSafe :=
  ⟨by decide, saveNotCrashSafe⟩

/-- Claim C6 (corrected): the upload operation is wrapped in a bounded
retry loop — at most the configured number of attempts, stopping at the
first success, failing exactly when every attempt fails, and sleeping the
configured delay between consecutive attempts — and returns a terminal
failure value rather than raising; but the collection find-or-create
operation makes a single pass (at most one lookup and one create request)
and consults only the first response of the remote store: it is not
retried. -/
theorem C6_bounded_retry (outcomes : Nat → UploadOutcome)
    (retryTimes retryDelay : Nat) (lists : Nat → ListResult)
    (creates : Nat → CreateResult) :
    (uploadFile outcomes retryTimes retryDelay).2.1 ≤ retryTimes ∧
    ((uploadFile outcomes retryTimes retryDelay).1 = true ↔
      ∃ k, k < retryTimes ∧ uploadOutcomeOk (outcomes k) = true) ∧
    ((uploadFile outcomes retryTimes retryDelay).1 = false →
      (uploadFile outcomes retryTimes retryDelay).2.1 = retryTimes ∧
      (uploadFile outcomes retryTimes retryDelay).2.2 =
        (retryTimes - 1) * retryDelay) ∧
    (getOrCreateCollection lists creates).2 ≤ 2 ∧
    (∀ (lists' : Nat → ListResult) (creates' : Nat → CreateResult),
      lists' 0 = lists 0 → creates' 0 = creates 0 →
      getOrCreateCollection lists' creates' =
        getOrCreateCollection lists creates) := by
  refine ⟨uploadFileGo_att_le outcomes retryTimes retryDelay retryTimes 0,
    ?_, ?_, getOrCreateCollection_calls_le lists creates,
    fun l2 c2 h1 h2 =>
      getOrCreateCollection_first_only lists creates l2 c2 h1 h2⟩
  · have hiff := uploadFileGo_true_iff outcomes retryTimes retryDelay
      retryTimes 0
    simpa [uploadFile] using hiff
  · intro hf
    exact uploadFileGo_false outcomes retryTimes retryDelay retryTimes 0
      (by omega) hf

/-- Witness for C6 at a persistently failing upload with three attempts
and a five-second delay. -/
theorem C6_bounded_retry_witness :
    (uploadFile (fun _ => UploadOutcome.httpErr) 3 5).2.1 = 3 ∧
    (uploadFile (fun _ => UploadOutcome.httpErr) 3 5).2.2 = 10 := by
  have h := (C6_bounded_retry (fun _ => UploadOutcome.httpErr) 3 5
      (fun _ => ListResult.bad) (fun _ => CreateResult.bad)).2.2.1 (by decide)
  exact ⟨h.1, h.2⟩

/-- Counterexample for C6: against a remote store whose first responses
fail but whose second lookup would succeed, the source collection
resolution returns failure after a single pass (one lookup plus one
create request), while the retry loop the claim prescribes for both
operations would succeed on its second round. -/
theorem C6_counterexample :
    (getOrCreateCollection
      (fun n => if n = 0 then ListResult.bad
        else ListResult.found (("C").data))
      (fun _ => CreateResult.bad)).1 = none ∧
    (getOrCreateCollection
      (fun n => if n = 0 then ListResult.bad
        else ListResult.found (("C").data))
      (fun _ => CreateResult.bad)).2 = 2 ∧
    getOrCreateRetrySpec
      (fun n => if n = 0 then ListResult.bad
        else ListResult.found (("C").data))
      (fun _ => CreateResult.bad) 0 3 = some (("C").data) :=
  ⟨rfl, rfl, rfl⟩

/-- Claim C7 (corrected): when collection resolution fails for a grouping
name the pipeline skips each affected file (changing nothing but the log
of resolution calls) and a grouping name the remote store can resolve is
asked for at most once per run; but a failing grouping name is re-asked
once per affected file, because only successful resolutions are cached. -/
theorem C7_resolution_calls (cfg : SyncConfig)
    (m : List (Str × SyncRecord)) (fs : List FileInfo) :
    (∀ n, (cfg.collOracle n).isSome = true →
      (runSync cfg m fs).collCalls.count n ≤ 1) ∧
    (∀ (s : SyncState) (f : FileInfo), cacheConsistent cfg s →
      passesMarker f = true → passesDate cfg f = true →
      (∀ r, alLookup (getFileIdentity f.name) s.files = some r →
        ¬ r.hash = f.hash) →
      cfg.collOracle (collectionName cfg f) = none →
      processFile cfg s f =
        { s with collCalls := s.collCalls ++ [collectionName cfg f] }) := by
  constructor
  · intro n hn
    have hinv : callsInv cfg (initState m) := by
      intro n2 hn2
      constructor
      · simp [initState]
      · intro hge
        simp [initState] at hge
    exact ((foldl_callsInv cfg fs (initState m) hinv) n hn).1
  · intro s f hcc hm hd hmis ho
    have hcachenone : alLookup (collectionName cfg f) s.cache = none := by
      cases hcl : alLookup (collectionName cfg f) s.cache with
      | none => rfl
      | some cid =>
        have hx := hcc _ _ hcl
        rw [ho] at hx
        exact absurd hx (by simp)
    cases hl : alLookup (getFileIdentity f.name) s.files with
    | some r =>
      have hh := hmis r hl
      rw [processFile_upload_some hm hd hl hh,
        uploadPhase_collfail hcachenone ho]
    | none =>
      rw [processFile_upload_none hm hd hl,
        uploadPhase_collfail hcachenone ho]

/-- Witness for C7: a resolvable grouping name is asked for at most once
in a two-file run, and a failing grouping name skips the file changing
only the call log. -/
theorem C7_resolution_calls_witness :
    (runSync cfgA [] [fileA, fileB]).collCalls.count (("trials").data) ≤ 1 ∧
    processFile cfgN (initState []) fileH1 =
      { initState [] with collCalls :=
          (initState []).collCalls ++ [collectionName cfgN fileH1] } :=
  ⟨(C7_resolution_calls cfgA [] [fileA, fileB]).1 (("trials").data)
      (by decide),
   (C7_resolution_calls cfgN [] []).2 (initState []) fileH1
      (fun n cid hx => by simp [initState, alLookup] at hx)
      (by decide) (by decide)
      (fun r hx => by simp [initState, migrate, alLookup] at hx)
      (by decide)⟩

/-- Counterexample for C7: with a remote store that fails on the archive
grouping, a run over two archive files makes two resolution calls for the
single grouping name history — one per affected file, not at most one per
distinct grouping name as the claim states. -/
theorem C7_counterexample :
    (runSync cfgN [] [fileH1, fileH2]).collCalls.count historySeg = 2 ∧
    (runSync cfgN [] [fileH1, fileH2]).added = 0 ∧
    (runSync cfgN [] [fileH1, fileH2]).modified = 0 := by
  decide

/-- Claim C1 (corrected): a file whose identity already has a record with
an equal stored hash is classified as skip, incrementing only the skipped
count and leaving the mapping untouched; and — provided no two eligible
files of the tree resolve to the same identity with different
fingerprints — after one successful run (every eligible file uploadable
and every needed grouping resolvable) a repeat run over the identical
files performs no upload call and yields added equal to zero and modified
equal to zero, with the mapping unchanged. -/
theorem C1_idempotent_rerun (cfg : SyncConfig)
    (m : List (Str × SyncRecord)) (fs : List FileInfo)
    (hcons : ∀ f ∈ fs, ∀ g ∈ fs, eligibleFile cfg f = true →
      eligibleFile cfg g = true →
      getFileIdentity f.name = getFileIdentity g.name → f.hash = g.hash)
    (hok : ∀ f ∈ fs, eligibleFile cfg f = true → f.uploadOk = true ∧
      (cfg.collOracle (collectionName cfg f)).isSome = true) :
    (∀ (s : SyncState) (f : FileInfo), passesMarker f = true →
      passesDate cfg f = true →
      ∀ r, alLookup (getFileIdentity f.name) s.files = some r →
        r.hash = f.hash →
        processFile cfg s f = { s with skipped := s.skipped + 1 }) ∧
    (runSync cfg (runSync cfg m fs).files fs).files =
      (runSync cfg m fs).files ∧
    (runSync cfg (runSync cfg m fs).files fs).added = 0 ∧
    (runSync cfg (runSync cfg m fs).files fs).modified = 0 ∧
    (runSync cfg (runSync cfg m fs).files fs).uploadAttempts = [] := by
  have hcov : ∀ f ∈ fs, eligibleFile cfg f = true →
      ∃ r, alLookup (getFileIdentity f.name)
        ((runSync cfg m fs).files) = some r ∧ r.hash = f.hash :=
    foldl_covers cfg fs (initState m) hcons hok
  have hmig : migrate ((runSync cfg m fs).files) = (runSync cfg m fs).files := by
    apply migrate_of_migratedKeys
    exact foldl_migratedKeys cfg fs (initState m) (migratedKeys_migrate m)
  have hinit : (initState ((runSync cfg m fs).files)).files =
      (runSync cfg m fs).files := by
    simp only [initState]
    exact hmig
  have hrec2 : ∀ f ∈ fs, eligibleFile cfg f = true →
      ∃ r, alLookup (getFileIdentity f.name)
        ((initState ((runSync cfg m fs).files)).files) = some r ∧
        r.hash = f.hash := by
    intro g hg he
    rw [hinit]
    exact hcov g hg he
  obtain ⟨h1, h2, h3, h4⟩ :=
    foldl_allskip cfg fs (initState ((runSync cfg m fs).files)) hrec2
  refine ⟨?_, h1.trans hinit, h2, ?_, h4⟩
  · intro s g hm hd r hl hh
    exact processFile_same hm hd hl hh
  · exact h3

/-- Witness for C1 at a concrete one-file tree: the second run adds and
modifies nothing. -/
theorem C1_idempotent_rerun_witness :
    (runSync cfgA (runSync cfgA [] [fileA]).files [fileA]).added = 0 ∧
    (runSync cfgA (runSync cfgA [] [fileA]).files [fileA]).modified = 0 :=
  ⟨(C1_idempotent_rerun cfgA [] [fileA] (by decide) (by decide)).2.2.1,
   (C1_idempotent_rerun cfgA [] [fileA] (by decide) (by decide)).2.2.2.1⟩

/-- Counterexample for C1: two files carrying the same identity token but
different content defeat idempotence — after a fully successful first
run, the second run over the identical unchanged files re-uploads both
(modified is two, not zero), because each file's fingerprint disagrees
with the single record their shared identity holds. -/
theorem C1_counterexample :
    (runSync cfgA [] [fileA, fileB]).added = 1 ∧
    (runSync cfgA [] [fileA, fileB]).modified = 1 ∧
    (runSync cfgA (runSync cfgA [] [fileA, fileB]).files
      [fileA, fileB]).added = 0 ∧
    (runSync cfgA (runSync cfgA [] [fileA, fileB]).files
      [fileA, fileB]).modified = 2 := by
  decide
